import Mathlib

/-!
# Verification of the alya keyboard firmware core

Shallow embedding of the firmware's input-processing pipeline:
matrix debouncing, layered key-layout resolution with hold-tap
disambiguation, HID report synthesis, and the periodic tick handler
that glues them to the USB transport.

The tick handler and the layer table are embedded from
`src/main.rs` and `src/layout.rs`.  The debouncer, hold-tap state
machine, layer resolution and report builder live in the imported
keyboard library whose source is not part of this repository; those
parts are modelled from the specification text, as marked on each
definition.
-/

/-! ## Debouncer -/

/-- Modelled from the spec: per-coordinate Debounce State of the
library Debouncer (not in this repository's sources) — the last
accepted state and a run-length counter of consecutive observations
that disagree with it (the in-progress candidate, which for booleans
is the negation of the accepted state). -/
structure DebSt where
  accepted : Bool
  count : Nat
  deriving DecidableEq, Repr

/-- Modelled from the spec: one debouncer step for one coordinate.
If the raw state agrees with the last accepted state, the candidate
run is reset; otherwise the run-length counter advances, and once it
reaches the threshold the transition event is emitted, the accepted
state flips and the counter resets. -/
def debStep (th : Nat) (s : DebSt) (x : Bool) : DebSt × Option Bool :=
  if x = s.accepted then
    (⟨s.accepted, 0⟩, none)
  else if th ≤ s.count + 1 then
    (⟨x, 0⟩, some x)
  else
    (⟨s.accepted, s.count + 1⟩, none)

/-- Run the debouncer over a list of raw observations (one per tick),
collecting the per-tick event output. -/
def debRun (th : Nat) (s : DebSt) : List Bool → List (Option Bool)
  | [] => []
  | x :: xs => (debStep th s x).2 :: debRun th (debStep th s x).1 xs

/-- The debouncer state after consuming a list of raw observations. -/
def debState (th : Nat) (s : DebSt) : List Bool → DebSt
  | [] => s
  | x :: xs => debState th (debStep th s x).1 xs

/-- The debounce threshold the firmware constructs its Debouncer with
(`Debouncer::new([[false; 7]; 10], [[false; 7]; 10], 5)` in
`src/main.rs`). -/
def firmwareDebounceThreshold : Nat := 5

theorem debRun_get? (th : Nat) :
    ∀ (xs : List Bool) (s : DebSt) (n : Nat),
      (debRun th s xs).get? n =
        (xs.get? n).map (fun x => (debStep th (debState th s (xs.take n)) x).2)
  | [], _, _ => by simp [debRun]
  | _ :: _, _, 0 => by simp [debRun, debState]
  | x :: xs, s, n + 1 => by
    simpa [debRun, debState] using debRun_get? th xs (debStep th s x).1 n

theorem debState_append (th : Nat) (pre : List Bool) (x : Bool) (s : DebSt) :
    debState th s (pre ++ [x]) = (debStep th (debState th s pre) x).1 := by
  induction pre generalizing s with
  | nil => rfl
  | cons y ys ih => simpa [debState] using ih (debStep th s y).1

/-- The run-length counter is always backed by actual history: after
consuming `pre` from a fresh state, the counter stays below the
threshold, does not exceed the history length, and every observation
of the current run disagrees with the accepted state. -/
theorem debState_backed (th : Nat) (hth : 0 < th) :
    ∀ (pre : List Bool) (a : Bool),
      (debState th ⟨a, 0⟩ pre).count < th ∧
      (debState th ⟨a, 0⟩ pre).count ≤ pre.length ∧
      ∀ k < (debState th ⟨a, 0⟩ pre).count,
        pre.get? (pre.length - 1 - k) =
          some (!(debState th ⟨a, 0⟩ pre).accepted) := by
  intro pre
  induction pre using List.reverseRecOn with
  | nil =>
    intro a
    exact ⟨hth, Nat.le_refl 0, by intro k hk; cases hk⟩
  | append_singleton pre x ih =>
    intro a
    rcases ih a with ⟨hlt, hlen, hrun⟩
    rw [debState_append]
    set s₁ := debState th ⟨a, 0⟩ pre with hs₁
    by_cases hx : x = s₁.accepted
    · simp only [debStep, if_pos hx]
      exact ⟨hth, Nat.zero_le _, by intro k hk; cases hk⟩
    · by_cases hcnt : th ≤ s₁.count + 1
      · simp only [debStep, if_neg hx, if_pos hcnt]
        exact ⟨hth, Nat.zero_le _, by intro k hk; cases hk⟩
      · simp only [debStep, if_neg hx, if_neg hcnt]
        refine ⟨by omega, ?_, ?_⟩
        · simp only [List.length_append, List.length_singleton]
          omega
        · intro k hk
          match k, hk with
          | 0, _ =>
            have hidx : (pre ++ [x]).length - 1 - 0 = pre.length := by
              simp [List.length_append]
            rw [hidx, List.get?_concat_length]
            have : x = !s₁.accepted := by
              cases x <;> cases h : s₁.accepted <;> simp_all
            rw [this]
          | k' + 1, hk =>
            have hk' : k' < s₁.count := by omega
            have hplen : 0 < pre.length := by omega
            have hidx : (pre ++ [x]).length - 1 - (k' + 1) =
                pre.length - 1 - k' := by
              simp only [List.length_append, List.length_singleton]
              omega
            have hin : pre.length - 1 - k' < pre.length := by omega
            rw [hidx, List.get?_append hin]
            exact hrun k' hk'

/-- C2: an emitted debounce event requires the raw state to have been
observed constant for exactly the configured threshold (5) of
consecutive ticks following a genuine change from the last accepted
state; 5 consecutive differing observations from a fresh state emit
the event at exactly the 5th tick. -/
theorem debouncer_event_requires_stable_window
    (xs : List Bool) (a b : Bool) (n : Nat)
    (h : (debRun firmwareDebounceThreshold ⟨a, 0⟩ xs).get? n = some (some b)) :
    4 ≤ n ∧
    (debState firmwareDebounceThreshold ⟨a, 0⟩ (xs.take n)).accepted ≠ b ∧
    (∀ k ≤ 4, xs.get? (n - k) = some b) ∧
    (∀ a' : Bool, debRun firmwareDebounceThreshold ⟨a', 0⟩
        (List.replicate 5 (!a')) = [none, none, none, none, some (!a')]) := by
  have hth : firmwareDebounceThreshold = 5 := rfl
  rw [hth] at h ⊢
  rw [debRun_get?] at h
  cases hx : xs.get? n with
  | none => rw [hx] at h; cases h
  | some x =>
    rw [hx] at h
    have hstep : (debStep 5 (debState 5 ⟨a, 0⟩ (xs.take n)) x).2 = some b :=
      Option.some.inj h
    set s := debState 5 ⟨a, 0⟩ (xs.take n) with hs
    by_cases hxa : x = s.accepted
    · simp [debStep, hxa] at hstep
    · by_cases hcnt : (5 : Nat) ≤ s.count + 1
      · simp only [debStep, if_neg hxa, if_pos hcnt] at hstep
        have hxb : x = b := by
          have := Option.some.inj hstep
          simpa using this
        obtain ⟨hlt, hlen, hrun⟩ := debState_backed 5 (by norm_num) (xs.take n) a
        rw [← hs] at hlt hlen hrun
        have hnlt : n < xs.length := (List.get?_eq_some.mp hx).1
        have htk : (xs.take n).length = n := by
          simp [List.length_take]
          omega
        have hcount : s.count = 4 := by omega
        have h4n : 4 ≤ n := by
          rw [htk] at hlen
          omega
        refine ⟨h4n, ?_, ?_, ?_⟩
        · intro hab
          exact hxa (hxb.trans hab.symm)
        · intro k hk
          cases k with
          | zero => simpa [hxb] using hx
          | succ k' =>
            have hk' : k' < s.count := by omega
            have := hrun k' hk'
            rw [htk] at this
            have hidx : n - 1 - k' = n - (k' + 1) := by omega
            rw [hidx] at this
            have hlt' : n - (k' + 1) < n := by omega
            rw [List.get?_take hlt'] at this
            rw [this]
            have hnb : (!s.accepted) = b := by
              cases hacc : s.accepted <;> cases hb : b <;> simp_all
            rw [hnb]
        · intro a'
          cases a' <;> rfl
      · simp only [debStep, if_neg hxa, if_neg hcnt] at hstep
        cases hstep

/-- C2 witness: a concrete run — from accepted `false`, five consecutive
`true` observations emit the press event at tick index 4 and the
conclusions of the window theorem hold there. -/
theorem debouncer_event_requires_stable_window_witness :
    4 ≤ 4 ∧
    (debState firmwareDebounceThreshold ⟨false, 0⟩
        ([true, true, true, true, true].take 4)).accepted ≠ true ∧
    (∀ k ≤ 4, [true, true, true, true, true].get? (4 - k) = some true) ∧
    (∀ a' : Bool, debRun firmwareDebounceThreshold ⟨a', 0⟩
        (List.replicate 5 (!a')) = [none, none, none, none, some (!a')]) :=
  debouncer_event_requires_stable_window [true, true, true, true, true]
    false true 4 (by decide)

/-! ## Keycodes and the HID report builder -/

/-- A HID keycode, identified by its USB usage number as in the key
code enumeration of the keyboard library. -/
abbrev KeyCode := Nat

namespace KC

def A : KeyCode := 4
def B : KeyCode := 5
def C : KeyCode := 6
def D : KeyCode := 7
def E : KeyCode := 8
def F : KeyCode := 9
def G : KeyCode := 10
def H : KeyCode := 11
def I : KeyCode := 12
def J : KeyCode := 13
def K : KeyCode := 14
def L : KeyCode := 15
def M : KeyCode := 16
def N : KeyCode := 17
def O : KeyCode := 18
def P : KeyCode := 19
def Q : KeyCode := 20
def R : KeyCode := 21
def S : KeyCode := 22
def T : KeyCode := 23
def U : KeyCode := 24
def V : KeyCode := 25
def W : KeyCode := 26
def X : KeyCode := 27
def Y : KeyCode := 28
def Z : KeyCode := 29
def Kb1 : KeyCode := 30
def Kb2 : KeyCode := 31
def Kb3 : KeyCode := 32
def Kb4 : KeyCode := 33
def Kb5 : KeyCode := 34
def Kb6 : KeyCode := 35
def Kb7 : KeyCode := 36
def Kb8 : KeyCode := 37
def Kb9 : KeyCode := 38
def Kb0 : KeyCode := 39
def Enter : KeyCode := 40
def Escape : KeyCode := 41
def BSpace : KeyCode := 42
def Tab : KeyCode := 43
def Space : KeyCode := 44
def Minus : KeyCode := 45
def Equal : KeyCode := 46
def LBracket : KeyCode := 47
def RBracket : KeyCode := 48
def NonUsHash : KeyCode := 50
def SColon : KeyCode := 51
def Quote : KeyCode := 52
def Grave : KeyCode := 53
def Comma : KeyCode := 54
def Dot : KeyCode := 55
def Slash : KeyCode := 56
def F1 : KeyCode := 58
def F2 : KeyCode := 59
def F3 : KeyCode := 60
def F4 : KeyCode := 61
def F5 : KeyCode := 62
def F6 : KeyCode := 63
def F7 : KeyCode := 64
def F8 : KeyCode := 65
def F9 : KeyCode := 66
def F10 : KeyCode := 67
def F11 : KeyCode := 68
def F12 : KeyCode := 69
def Insert : KeyCode := 73
def Home : KeyCode := 74
def PgUp : KeyCode := 75
def Delete : KeyCode := 76
def End : KeyCode := 77
def PgDown : KeyCode := 78
def Right : KeyCode := 79
def Left : KeyCode := 80
def Down : KeyCode := 81
def Up : KeyCode := 82
def NonUsBslash : KeyCode := 100
def VolUp : KeyCode := 128
def VolDown : KeyCode := 129
def LCtrl : KeyCode := 224
def LShift : KeyCode := 225
def LAlt : KeyCode := 226
def LGui : KeyCode := 227
def RAlt : KeyCode := 230
def MediaPlayPause : KeyCode := 232
def MediaNextSong : KeyCode := 235

end KC

/-- A keycode is a modifier when it lies in the HID modifier range
LCtrl..RGui (0xE0..0xE7). -/
def KeyCode.isModifier (k : KeyCode) : Bool := 0xE0 ≤ k && k ≤ 0xE7

/-- Capacity of the non-modifier key slots of a boot-keyboard HID
report. -/
def reportCapacity : Nat := 6

/-- Modelled from the spec: the fixed-size HID report of the keyboard
library (not in this repository's sources) — one modifier bitmask
byte plus an ordered set of up to six non-modifier keycodes. -/
structure KbHidReport where
  modifiers : Nat
  keys : List KeyCode
  deriving DecidableEq, Repr

/-- Modelled from the spec: registering one active keycode in the
report — a modifier sets its bit in the modifier byte, a regular key
is appended to the key slots in order of appearance, and is silently
dropped when all six slots are taken. -/
def KbHidReport.pressed (r : KbHidReport) (k : KeyCode) : KbHidReport :=
  if k.isModifier then
    { r with modifiers := r.modifiers ||| 2 ^ (k - 0xE0) }
  else if r.keys.length < reportCapacity then
    { r with keys := r.keys ++ [k] }
  else
    r

/-- Modelled from the spec: building the HID report by registering
every keycode of the Active Keycode Set in order. -/
def buildReport (kcs : List KeyCode) : KbHidReport :=
  kcs.foldl KbHidReport.pressed ⟨0, []⟩

theorem foldl_pressed_keys :
    ∀ (kcs : List KeyCode) (r : KbHidReport),
      (kcs.foldl KbHidReport.pressed r).keys =
        r.keys ++ (kcs.filter (fun k => !k.isModifier)).take
          (reportCapacity - r.keys.length)
  | [], r => by simp
  | k :: kcs, r => by
    by_cases hm : k.isModifier
    · rw [List.foldl_cons]
      have hr : r.pressed k = { r with modifiers := r.modifiers ||| 2 ^ (k - 0xE0) } := by
        simp [KbHidReport.pressed, hm]
      rw [hr, foldl_pressed_keys kcs]
      simp [List.filter_cons, hm]
    · by_cases hlen : r.keys.length < reportCapacity
      · rw [List.foldl_cons]
        have hr : r.pressed k = { r with keys := r.keys ++ [k] } := by
          simp [KbHidReport.pressed, hm, hlen]
        rw [hr, foldl_pressed_keys kcs]
        have hcap : reportCapacity - r.keys.length =
            (reportCapacity - (r.keys.length + 1)) + 1 := by omega
        simp only [List.filter_cons, hm, Bool.not_false, List.length_append,
          List.length_singleton, List.append_assoc, List.singleton_append]
        rw [hcap]
        simp [List.take_succ_cons]
      · rw [List.foldl_cons]
        have hr : r.pressed k = r := by
          simp [KbHidReport.pressed, hm, hlen]
        rw [hr, foldl_pressed_keys kcs]
        have hcap : reportCapacity - r.keys.length = 0 := by omega
        simp [List.filter_cons, hm, hcap]

theorem foldl_pressed_modifiers :
    ∀ (kcs : List KeyCode) (r : KbHidReport) (i : Nat),
      (kcs.foldl KbHidReport.pressed r).modifiers.testBit i =
        (r.modifiers.testBit i ||
          kcs.any (fun k => k.isModifier && (k - 0xE0 == i)))
  | [], r, i => by simp
  | k :: kcs, r, i => by
    by_cases hm : k.isModifier
    · rw [List.foldl_cons]
      have hr : r.pressed k = { r with modifiers := r.modifiers ||| 2 ^ (k - 0xE0) } := by
        simp [KbHidReport.pressed, hm]
      rw [hr, foldl_pressed_modifiers kcs]
      simp only [Nat.testBit_or, Nat.testBit_two_pow, List.any_cons, hm,
        Bool.true_and]
      cases h : decide (k - 0xE0 = i) <;>
        cases h2 : ((k : Nat) - 0xE0 == i) <;> simp_all [Nat.beq_eq]
    · rw [List.foldl_cons]
      by_cases hlen : r.keys.length < reportCapacity
      · have hr : r.pressed k = { r with keys := r.keys ++ [k] } := by
          simp [KbHidReport.pressed, hm, hlen]
        rw [hr, foldl_pressed_modifiers kcs]
        simp [List.any_cons, hm]
      · have hr : r.pressed k = r := by
          simp [KbHidReport.pressed, hm, hlen]
        rw [hr, foldl_pressed_modifiers kcs]
        simp [List.any_cons, hm]

/-- C5: the built HID report sets one modifier bit per active modifier
keycode, lists the non-modifier keycodes in order of appearance, and
when more than six non-modifier keycodes are active keeps exactly the
first six and silently drops the rest; in particular the spec's
example with LShift and seven letters keeps the first six letters and
drops the seventh. -/
theorem report_truncates_to_first_six (kcs : List KeyCode) :
    (buildReport kcs).keys =
      (kcs.filter (fun k => !k.isModifier)).take reportCapacity ∧
    (∀ i : Nat, (buildReport kcs).modifiers.testBit i =
      kcs.any (fun k => k.isModifier && (k - 0xE0 == i))) ∧
    buildReport [KC.LShift, KC.A, KC.B, KC.C, KC.D, KC.E, KC.F, KC.G] =
      ⟨2, [KC.A, KC.B, KC.C, KC.D, KC.E, KC.F]⟩ := by
  refine ⟨?_, ?_, ?_⟩
  · have := foldl_pressed_keys kcs ⟨0, []⟩
    simpa [buildReport] using this
  · intro i
    have := foldl_pressed_modifiers kcs ⟨0, []⟩ i
    simpa [buildReport] using this
  · decide

/-! ## Actions and the layer table (from `src/layout.rs`) -/

/-- The hold-tap configuration policy; this firmware only uses the
library's default policy. -/
inductive HoldTapConfig where
  | default
  deriving DecidableEq, Repr

/-- A hold-tap binding as configured in `src/layout.rs`: timeout,
tap-hold interval, policy, and the hold and tap bindings (every hold
and tap binding in this firmware is a plain keycode, so they are
embedded as keycodes). -/
structure HoldTapAction where
  timeout : Nat
  tapHoldInterval : Nat
  config : HoldTapConfig
  hold : KeyCode
  tap : KeyCode
  deriving DecidableEq, Repr

/-- An action binding: the closed variant set of meanings a coordinate
can have on a layer. The custom payload type is the unit type, as in
`Layout<7, 10, 5, ()>`. -/
inductive KAction where
  | noOp
  | trans
  | key (kc : KeyCode)
  | multi (kcs : List KeyCode)
  | layer (l : Nat)
  | defaultLayer (l : Nat)
  | holdTap (ht : HoldTapAction)
  | custom (c : Unit)
  deriving DecidableEq, Repr

/-- `k(...)` of the layout source: a plain keycode binding. -/
def k (kc : KeyCode) : KAction := .key kc

/-- `m(&[...])` of the layout source: a modifier-chord macro binding. -/
def m (kcs : List KeyCode) : KAction := .multi kcs

/-- `n` of the layout macro: the no-op binding. -/
def na : KAction := .noOp

/-- `t` of the layout macro: the transparent binding. -/
def tr : KAction := .trans

/-- `(i)` of the layout macro: a momentary layer-switch binding. -/
def la (i : Nat) : KAction := .layer i

/-- The `s!` macro of `src/layout.rs`: a shifted keycode chord. -/
def sChord (kc : KeyCode) : KAction := m [KC.LShift, kc]

/-- The `a!` macro of `src/layout.rs`: an AltGr keycode chord. -/
def aChord (kc : KeyCode) : KAction := m [KC.RAlt, kc]

/-- `DLAYER` of `src/layout.rs`. -/
def DLAYER : KAction := .defaultLayer 0

/-- `QWERTZLAYER` of `src/layout.rs`. -/
def QWERTZLAYER : KAction := .defaultLayer 4

/-- `TIMEOUT` of `src/layout.rs`. -/
def TIMEOUT : Nat := 200

/-- The hold-tap record of `SHIFT_SP` in `src/layout.rs`. -/
def shiftSpHT : HoldTapAction :=
  ⟨TIMEOUT, 200, .default, KC.LShift, KC.Space⟩

/-- `SHIFT_SP` of `src/layout.rs`. -/
def SHIFT_SP : KAction := .holdTap shiftSpHT

/-- `CTRL_TAB` of `src/layout.rs`. -/
def CTRL_TAB : KAction := .holdTap ⟨TIMEOUT, 200, .default, KC.LCtrl, KC.Tab⟩

/-- `ALT_ENT` of `src/layout.rs`. -/
def ALT_ENT : KAction := .holdTap ⟨TIMEOUT, 200, .default, KC.LAlt, KC.Enter⟩

/-- `PPN` of `src/layout.rs`. -/
def PPN : KAction :=
  .holdTap ⟨TIMEOUT, 200, .default, KC.MediaNextSong, KC.MediaPlayPause⟩

/-- `LAYERS` of `src/layout.rs`: five layers of ten rows of seven
columns (`Layers<7, 10, 5, ()>`), rows 0-4 the left half and rows 5-9
the right half of each layer. -/
def LAYERS : List (List (List KAction)) := [
  [ -- layer 0
    [na, na, k KC.Kb1, k KC.Kb2, k KC.Kb3, k KC.Kb4, k KC.Kb5],
    [na, k KC.J, k KC.Y, k KC.Z, k KC.U, k KC.A, k KC.Q],
    [la 1, na, k KC.C, k KC.S, k KC.I, k KC.E, k KC.O],
    [k KC.LGui, k KC.V, k KC.X, k KC.LBracket, k KC.Quote, k KC.SColon, na],
    [tr, tr, tr, tr, la 2, k KC.LShift, CTRL_TAB],
    [k KC.Kb6, k KC.Kb7, k KC.Kb8, k KC.Kb9, k KC.Kb0, na, na],
    [k KC.P, k KC.B, k KC.M, k KC.L, k KC.F, k KC.Minus, na],
    [k KC.D, k KC.T, k KC.N, k KC.R, k KC.H, na, la 1],
    [na, k KC.W, k KC.G, k KC.Comma, k KC.Dot, k KC.K, k KC.LGui],
    [ALT_ENT, SHIFT_SP, la 2, tr, tr, tr, tr]],
  [ -- layer 1
    [tr, tr, tr, tr, tr, tr, tr],
    [tr, tr, aChord KC.E, sChord KC.Slash, aChord KC.Kb8, aChord KC.Kb9,
      k KC.Grave],
    [tr, na, aChord KC.Minus, sChord KC.Kb7, aChord KC.Kb7, aChord KC.Kb0,
      sChord KC.RBracket],
    [tr, k KC.NonUsHash, sChord KC.Kb4, aChord KC.NonUsBslash,
      aChord KC.RBracket, sChord KC.Equal, tr],
    [tr, tr, tr, tr, la 3, tr, tr],
    [tr, tr, tr, tr, tr, tr, tr],
    [sChord KC.Kb1, k KC.NonUsBslash, sChord KC.NonUsBslash, sChord KC.Kb0,
      sChord KC.Kb6, aChord KC.Q, tr],
    [sChord KC.Minus, sChord KC.Kb8, sChord KC.Kb9, k KC.Slash,
      sChord KC.Dot, na, tr],
    [na, k KC.RBracket, sChord KC.Kb5, sChord KC.Kb2, sChord KC.NonUsHash,
      sChord KC.Comma, tr],
    [tr, tr, la 3, tr, tr, tr, tr]],
  [ -- layer 2
    [tr, tr, tr, tr, tr, tr, tr],
    [tr, tr, k KC.PgUp, k KC.BSpace, k KC.Up, k KC.Delete, k KC.PgDown],
    [la 3, na, k KC.Home, k KC.Left, k KC.Down, k KC.Right, k KC.End],
    [tr, tr, k KC.Escape, k KC.Tab, na, k KC.Enter, na],
    [tr, tr, tr, tr, tr, tr, tr],
    [tr, tr, tr, tr, tr, tr, tr],
    [na, k KC.Kb7, k KC.Kb8, k KC.Kb9, k KC.RBracket, k KC.Slash, tr],
    [na, k KC.Kb4, k KC.Kb5, k KC.Kb6, k KC.Dot, na, sChord KC.RBracket],
    [na, k KC.Kb0, k KC.Kb1, k KC.Kb2, k KC.Kb3, k KC.Comma, sChord KC.Kb7],
    [tr, tr, tr, tr, tr, tr, tr]],
  [ -- layer 3
    [tr, tr, tr, tr, tr, tr, tr],
    [.custom (), na, na, na, na, k KC.VolUp, na],
    [tr, na, na, na, na, PPN, na],
    [tr, na, na, na, na, k KC.VolDown, na],
    [tr, tr, tr, tr, tr, tr, tr],
    [tr, tr, tr, tr, tr, tr, tr],
    [k KC.F12, k KC.F7, k KC.F8, k KC.F9, na, na, .custom ()],
    [k KC.F11, k KC.F4, k KC.F5, k KC.F6, na, na, tr],
    [na, k KC.F10, k KC.F1, k KC.F2, k KC.F3, na, tr],
    [tr, tr, QWERTZLAYER, tr, tr, tr, tr]],
  [ -- layer 4
    [tr, tr, tr, tr, tr, tr, tr],
    [k KC.Tab, na, k KC.Q, k KC.W, k KC.E, k KC.R, k KC.T],
    [k KC.LCtrl, na, k KC.A, k KC.S, k KC.D, k KC.F, k KC.G],
    [k KC.LShift, k KC.Z, k KC.X, k KC.C, k KC.V, k KC.B, na],
    [na, na, na, na, k KC.LGui, k KC.LCtrl, k KC.LAlt],
    [tr, tr, tr, tr, tr, tr, tr],
    [k KC.Y, k KC.U, k KC.I, k KC.O, k KC.P, k KC.BSpace, tr],
    [k KC.H, k KC.J, k KC.K, k KC.L, k KC.SColon, na, k KC.Quote],
    [na, k KC.N, k KC.M, k KC.Comma, k KC.Dot, k KC.Slash, k KC.Escape],
    [k KC.Enter, k KC.Space, DLAYER, na, na, na, na]]
]

/-- Look up the action bound at `(layer, row, col)`; out-of-range
coordinates resolve to the no-op binding. -/
def getAction (layers : List (List (List KAction))) (l r c : Nat) : KAction :=
  (((layers.get? l).bind fun ly => (ly.get? r).bind fun row => row.get? c).getD
    .noOp)

/-- Modelled from the spec: transparent-binding resolution of the
layout engine (not in this repository's sources) — a transparent
binding on the highest active layer defers to the next lower active
layer recursively, falling back to the default layer; `active` lists
the explicitly active layers most-recently-activated first. -/
def resolveBinding (layers : List (List (List KAction))) (active : List Nat)
    (defLayer : Nat) (r c : Nat) : KAction :=
  match active with
  | [] => getAction layers defLayer r c
  | l :: rest =>
    match getAction layers l r c with
    | .trans => resolveBinding layers rest defLayer r c
    | a => a

/-- C7: a transparent binding on the highest active layer resolves
from the next lower active layer recursively, falling back to the
default layer; in particular, with layer 1 active, every coordinate
transparent on layer 1 resolves to the default layer's binding. -/
theorem transparent_binding_falls_through
    (r c : Nat) (h : getAction LAYERS 1 r c = .trans) :
    resolveBinding LAYERS [1] 0 r c = getAction LAYERS 0 r c ∧
    ∀ (layers : List (List (List KAction))) (l d : Nat) (rest : List Nat)
      (r' c' : Nat), getAction layers l r' c' = .trans →
      resolveBinding layers (l :: rest) d r' c' =
        resolveBinding layers rest d r' c' := by
  constructor
  · simp [resolveBinding, h]
  · intro layers l d rest r' c' h'
    simp [resolveBinding, h']

/-- C7 witness: coordinate (0, 0) is transparent on layer 1, and with
layer 1 active it resolves to the default layer's binding there. -/
theorem transparent_binding_falls_through_witness :
    resolveBinding LAYERS [1] 0 0 0 = getAction LAYERS 0 0 0 ∧
    ∀ (layers : List (List (List KAction))) (l d : Nat) (rest : List Nat)
      (r' c' : Nat), getAction layers l r' c' = .trans →
      resolveBinding layers (l :: rest) d r' c' =
        resolveBinding layers rest d r' c' :=
  transparent_binding_falls_through 0 0 (by decide)

/-! ## The tick handler (from `src/main.rs`) -/

/-- A custom event surfaced by the layout engine's tick; the payload
type of this firmware is the unit type, as in `Layout<7, 10, 5, ()>`. -/
inductive CustomEvent (T : Type) where
  | noEvent
  | press (t : T)
  | release (t : T)
  deriving DecidableEq, Repr

/-- The fixed system-memory address `0x1FFF0000` the tick handler
jumps to on a custom release event. -/
def bootloaderAddress : Nat := 0x1FFF0000

/-- The outcome of one tick-handler invocation.  The bootloader jump
never returns, so that outcome carries no HID report at all;
otherwise the handler builds the report and decides whether to send
it. -/
inductive TickResult where
  | bootload (addr : Nat)
  | reported (built : KbHidReport) (send : Bool)
  deriving DecidableEq, Repr

/-- The 8-byte wire image of a report: modifier byte, reserved byte,
six key-slot bytes (free slots are zero). -/
def KbHidReport.asBytes (r : KbHidReport) : List Nat :=
  r.modifiers :: 0 :: (r.keys ++ List.replicate (reportCapacity - r.keys.length) 0)

/-- Modelled from the spec: the class's `set_keyboard_report`
(keyboard library, not in this repository's sources) — stores the new
report and returns whether it differs bit-for-bit from the previously
sent one. -/
def setKeyboardReport (prev next : KbHidReport) : Bool :=
  decide (next.asBytes ≠ prev.asBytes)

/-- The tail of the tick handler of `src/main.rs` (lines 214-228):
match the layout tick's custom event — a release performs the
bootloader jump (which never returns) — and anything else falls
through to building the HID report from the active keycodes and
deciding whether to submit it. -/
def tickHandler (custom : CustomEvent Unit) (keycodes : List KeyCode)
    (prev : KbHidReport) : TickResult :=
  match custom with
  | .release () => .bootload bootloaderAddress
  | _ =>
    .reported (buildReport keycodes)
      (setKeyboardReport prev (buildReport keycodes))

/-- Result of one transport write attempt. -/
inductive WriteRes where
  | ok (n : Nat)
  | err
  deriving DecidableEq, Repr

/-- The report-submission retry loop of the tick handler
(`while let Ok(0) = usb_class.write(...)` in `src/main.rs`), run
against a stream of transport responses with explicit fuel: returns
the total number of write attempts once a write returns anything
other than `Ok(0)`, and `none` if the fuel is exhausted first. -/
def writeLoop (oracle : Nat → WriteRes) (attempt : Nat) : Nat → Option Nat
  | 0 => none
  | fuel + 1 =>
    match oracle attempt with
    | .ok 0 => writeLoop oracle (attempt + 1) fuel
    | _ => some (attempt + 1)

/-- The report-submission step of the tick handler: the freshly built
report enters the transport write loop only when `set_keyboard_report`
reports a change; otherwise nothing is written.  Returns the number of
transport write attempts performed. -/
def submitReport (oracle : Nat → WriteRes) (prev built : KbHidReport)
    (fuel : Nat) : Option Nat :=
  if setKeyboardReport prev built then writeLoop oracle 0 fuel
  else some 0

/-- C1: the tick handler performs the bootloader jump exactly when the
layout tick returns a custom Release event — and the jump outcome
carries no HID report, so none is built or sent in that run — while
any other tick outcome proceeds to build the report. -/
theorem tick_custom_release_bootloads (custom : CustomEvent Unit)
    (keycodes : List KeyCode) (prev : KbHidReport) :
    (tickHandler custom keycodes prev = .bootload bootloaderAddress ↔
      custom = .release ()) ∧
    (custom ≠ .release () →
      tickHandler custom keycodes prev =
        .reported (buildReport keycodes)
          (setKeyboardReport prev (buildReport keycodes))) := by
  cases custom with
  | noEvent => simp [tickHandler]
  | press c => cases c; simp [tickHandler]
  | release c => cases c; simp [tickHandler]

/-- C1 witness: a no-event tick builds the report, and a custom
release tick is exactly the bootloader jump. -/
theorem tick_custom_release_bootloads_witness :
    tickHandler CustomEvent.noEvent [] ⟨0, []⟩ =
      .reported (buildReport []) (setKeyboardReport ⟨0, []⟩ (buildReport [])) ∧
    tickHandler (CustomEvent.release ()) [] ⟨0, []⟩ =
      .bootload bootloaderAddress :=
  ⟨(tick_custom_release_bootloads CustomEvent.noEvent [] ⟨0, []⟩).2 (by decide),
   (tick_custom_release_bootloads (CustomEvent.release ()) [] ⟨0, []⟩).1.mpr rfl⟩

/-- C6: the custom payload type is the unit type and the handler
matches any custom Release, so releasing any custom-bound key
triggers the bootloader jump; the two Custom(()) bindings on layer 3
are the identical action, and a custom Press event is ignored — the
tick continues and still builds a report. -/
theorem any_custom_release_bootloads (keycodes : List KeyCode)
    (prev : KbHidReport) :
    (∀ c : Unit, tickHandler (.release c) keycodes prev =
      .bootload bootloaderAddress) ∧
    (∀ c : Unit, tickHandler (.press c) keycodes prev =
      .reported (buildReport keycodes)
        (setKeyboardReport prev (buildReport keycodes))) ∧
    getAction LAYERS 3 1 0 = .custom () ∧
    getAction LAYERS 3 6 6 = .custom () ∧
    getAction LAYERS 3 1 0 = getAction LAYERS 3 6 6 := by
  refine ⟨?_, ?_, by decide, by decide, by decide⟩
  · intro c; cases c; rfl
  · intro c; cases c; rfl

theorem writeLoop_pos (oracle : Nat → WriteRes) :
    ∀ (fuel a m : Nat), writeLoop oracle a fuel = some m → a + 1 ≤ m
  | 0, _, _, h => by cases h
  | fuel + 1, a, m, h => by
    unfold writeLoop at h
    match ho : oracle a with
    | .ok 0 =>
      rw [ho] at h
      have := writeLoop_pos oracle fuel (a + 1) m h
      omega
    | .ok (n + 1) =>
      rw [ho] at h
      cases h
      exact Nat.le_refl _
    | .err =>
      rw [ho] at h
      cases h
      exact Nat.le_refl _

/-- C8: the freshly built report is handed to the transport only when
it differs bit-for-bit from the previously sent report — when equal,
no write at all is performed; when different, the submission step is
the write loop, which performs at least one write when it completes. -/
theorem report_sent_only_on_change (oracle : Nat → WriteRes)
    (prev built : KbHidReport) (fuel : Nat) :
    (built.asBytes = prev.asBytes →
      submitReport oracle prev built fuel = some 0) ∧
    (built.asBytes ≠ prev.asBytes →
      submitReport oracle prev built fuel = writeLoop oracle 0 fuel ∧
      ∀ m, writeLoop oracle 0 fuel = some m → 1 ≤ m) := by
  constructor
  · intro h
    simp [submitReport, setKeyboardReport, h]
  · intro h
    refine ⟨by simp [submitReport, setKeyboardReport, h], ?_⟩
    intro m hm
    exact writeLoop_pos oracle fuel 0 m hm

/-- C8 witness: an unchanged report performs zero writes; a changed
report enters the write loop, whose completions count at least one
write. -/
theorem report_sent_only_on_change_witness :
    submitReport (fun _ => .err) ⟨0, []⟩ ⟨0, []⟩ 1 = some 0 ∧
    (submitReport (fun _ => .err) ⟨0, []⟩ ⟨2, []⟩ 1 =
        writeLoop (fun _ => .err) 0 1 ∧
      ∀ m, writeLoop (fun _ => .err) 0 1 = some m → 1 ≤ m) :=
  ⟨(report_sent_only_on_change (fun _ => .err) ⟨0, []⟩ ⟨0, []⟩ 1).1 rfl,
   (report_sent_only_on_change (fun _ => .err) ⟨0, []⟩ ⟨2, []⟩ 1).2 (by decide)⟩

theorem writeLoop_allZero (fuel : Nat) :
    ∀ a, writeLoop (fun _ => .ok 0) a fuel = none := by
  induction fuel with
  | zero => intro a; rfl
  | succ f ih => intro a; simpa [writeLoop] using ih (a + 1)

/-- C9 counterexample: against a transport that answers `Ok(0)`
forever, the report-submission retry loop never completes, whatever
fuel it is given — so the tick handler's submission step does not
terminate for every input state. -/
theorem write_loop_can_spin_forever :
    ¬ ∃ fuel m, writeLoop (fun _ => .ok 0) 0 fuel = some m := by
  rintro ⟨fuel, m, h⟩
  rw [writeLoop_allZero fuel 0] at h
  cases h

theorem writeLoop_halts_after (i : Nat) :
    ∀ (oracle : Nat → WriteRes) (a : Nat), oracle (a + i) ≠ .ok 0 →
      ∃ m, writeLoop oracle a (i + 1) = some m := by
  induction i with
  | zero =>
    intro oracle a h
    rw [Nat.add_zero] at h
    refine ⟨a + 1, ?_⟩
    unfold writeLoop
    match ho : oracle a with
    | .ok 0 => exact absurd ho h
    | .ok (n + 1) => rfl
    | .err => rfl
  | succ i ih =>
    intro oracle a h
    by_cases h0 : oracle a = .ok 0
    · have hsh : oracle (a + 1 + i) ≠ .ok 0 := by
        rw [Nat.add_right_comm]
        exact h
      obtain ⟨m, hm⟩ := ih oracle (a + 1) hsh
      refine ⟨m, ?_⟩
      unfold writeLoop
      rw [h0]
      exact hm
    · refine ⟨a + 1, ?_⟩
      unfold writeLoop
      match ho : oracle a with
      | .ok 0 => exact absurd ho h0
      | .ok (n + 1) => rfl
      | .err => rfl

/-- C9 (amended): the report-submission retry loop terminates whenever
the transport eventually answers with anything other than `Ok(0)`; it
spins forever against a transport that answers `Ok(0)` at every
attempt. -/
theorem write_loop_terminates_if_transport_progresses
    (oracle : Nat → WriteRes) (i : Nat) (h : oracle i ≠ .ok 0) :
    ∃ fuel m, writeLoop oracle 0 fuel = some m := by
  obtain ⟨m, hm⟩ := writeLoop_halts_after i oracle 0 (by simpa using h)
  exact ⟨i + 1, m, hm⟩

/-- C9 witness: against a transport whose first answer is an error,
the write loop completes. -/
theorem write_loop_terminates_if_transport_progresses_witness :
    ∃ fuel m, writeLoop (fun _ => WriteRes.err) 0 fuel = some m :=
  write_loop_terminates_if_transport_progresses (fun _ => WriteRes.err) 0
    (by decide)

/-! ## Hold-tap disambiguation -/

/-- Modelled from the spec: the phase of one hold-tap-bound key of the
layout engine (keyboard library, not in this repository's sources) —
idle, a Hold-Tap Pending State counting the remaining ticks until the
timeout, or committed tmo the hold or tmo the tap interpretation while
the key stays down. -/
inductive HtPhase where
  | idle
  | pending (remaining : Nat)
  | committedHold
  | committedTap
  deriving DecidableEq, Repr

/-- What reaches the hold-tap key on one tick: nothing, its own press
or release, or an interrupting press of another key. -/
inductive HtIn where
  | idleTick
  | pressHt
  | releaseHt
  | otherPress
  deriving DecidableEq, Repr

/-- Per-tick output of the hold-tap machine: the new phase, and
whether a tap press+release pair was emitted this tick. -/
structure HtOut where
  phase : HtPhase
  tapPair : Bool
  deriving DecidableEq, Repr

/-- Whether the hold action is asserted in this phase. -/
def HtPhase.isHold : HtPhase → Bool
  | .committedHold => true
  | _ => false

/-- Whether the tap keycode is asserted in this phase. -/
def HtPhase.isTap : HtPhase → Bool
  | .committedTap => true
  | _ => false

/-- Modelled from the spec: one tick of the hold-tap state machine —
a press starts the pending state with the configured timeout; release
while still pending commits the tap interpretation (one tap
press+release pair); an interrupting press while pending forces the
tap interpretation (the tap keycode is asserted until release); the
timeout elapsing commits the hold interpretation, asserted until
release. -/
def htStep (tmo : Nat) (p : HtPhase) (i : HtIn) : HtOut :=
  match p, i with
  | .idle, .pressHt => ⟨.pending tmo, false⟩
  | .idle, _ => ⟨.idle, false⟩
  | .pending _, .releaseHt => ⟨.idle, true⟩
  | .pending _, .otherPress => ⟨.committedTap, false⟩
  | .pending r, .idleTick =>
    if r ≤ 1 then ⟨.committedHold, false⟩ else ⟨.pending (r - 1), false⟩
  | .pending r, .pressHt => ⟨.pending r, false⟩
  | .committedHold, .releaseHt => ⟨.idle, false⟩
  | .committedHold, _ => ⟨.committedHold, false⟩
  | .committedTap, .releaseHt => ⟨.idle, false⟩
  | .committedTap, _ => ⟨.committedTap, false⟩

/-- Run the hold-tap machine over a list of per-tick inputs,
collecting the per-tick outputs. -/
def htRun (tmo : Nat) (p : HtPhase) : List HtIn → List HtOut
  | [] => []
  | i :: is => htStep tmo p i :: htRun tmo (htStep tmo p i).phase is

/-- The hold-tap phase after consuming a list of per-tick inputs. -/
def htPhaseAfter (tmo : Nat) (p : HtPhase) : List HtIn → HtPhase
  | [] => p
  | i :: is => htPhaseAfter tmo (htStep tmo p i).phase is

theorem htRun_append (tmo : Nat) :
    ∀ (xs ys : List HtIn) (p : HtPhase),
      htRun tmo p (xs ++ ys) =
        htRun tmo p xs ++ htRun tmo (htPhaseAfter tmo p xs) ys
  | [], _, _ => rfl
  | x :: xs, ys, p => by
    simpa [htRun, htPhaseAfter] using htRun_append tmo xs ys (htStep tmo p x).phase

theorem htPhaseAfter_append (tmo : Nat) :
    ∀ (xs ys : List HtIn) (p : HtPhase),
      htPhaseAfter tmo p (xs ++ ys) =
        htPhaseAfter tmo (htPhaseAfter tmo p xs) ys
  | [], _, _ => rfl
  | x :: xs, ys, p => by
    simpa [htPhaseAfter] using htPhaseAfter_append tmo xs ys (htStep tmo p x).phase

theorem htRun_length (tmo : Nat) :
    ∀ (xs : List HtIn) (p : HtPhase), (htRun tmo p xs).length = xs.length
  | [], _ => rfl
  | x :: xs, p => by
    simpa [htRun] using htRun_length tmo xs (htStep tmo p x).phase

theorem htRun_hold_absorbs (tmo : Nat) :
    ∀ u : Nat, htRun tmo .committedHold (List.replicate u .idleTick) =
        List.replicate u ⟨.committedHold, false⟩ ∧
      htPhaseAfter tmo .committedHold (List.replicate u .idleTick) =
        .committedHold
  | 0 => ⟨rfl, rfl⟩
  | u + 1 => by
    obtain ⟨h1, h2⟩ := htRun_hold_absorbs tmo u
    constructor
    · simpa [htRun, htStep, List.replicate_succ] using h1
    · simpa [htPhaseAfter, htStep, List.replicate_succ] using h2

theorem htRun_tap_absorbs (tmo : Nat) :
    ∀ u : Nat, htRun tmo .committedTap (List.replicate u .idleTick) =
        List.replicate u ⟨.committedTap, false⟩ ∧
      htPhaseAfter tmo .committedTap (List.replicate u .idleTick) =
        .committedTap
  | 0 => ⟨rfl, rfl⟩
  | u + 1 => by
    obtain ⟨h1, h2⟩ := htRun_tap_absorbs tmo u
    constructor
    · simpa [htRun, htStep, List.replicate_succ] using h1
    · simpa [htPhaseAfter, htStep, List.replicate_succ] using h2

theorem htRun_pending_idles (tmo : Nat) :
    ∀ (t r : Nat), t < r →
      (∀ o ∈ htRun tmo (.pending r) (List.replicate t .idleTick),
        ∃ r', o = ⟨.pending r', false⟩) ∧
      htPhaseAfter tmo (.pending r) (List.replicate t .idleTick) =
        .pending (r - t) := by
  intro t
  induction t with
  | zero =>
    intro r _
    refine ⟨?_, rfl⟩
    intro o ho
    simp [List.replicate, htRun] at ho
  | succ t ih =>
    intro r hr
    have hr2 : ¬r ≤ 1 := by omega
    have hstep : htStep tmo (.pending r) .idleTick = ⟨.pending (r - 1), false⟩ := by
      simp [htStep, hr2]
    obtain ⟨hmem, hafter⟩ := ih (r - 1) (by omega)
    constructor
    · intro o ho
      rw [List.replicate_succ, htRun] at ho
      rw [hstep] at ho
      rcases List.mem_cons.mp ho with h | h
      · exact ⟨r - 1, h⟩
      · exact hmem o h
    · rw [List.replicate_succ, htPhaseAfter, hstep]
      rw [hafter]
      have : r - 1 - t = r - (t + 1) := by omega
      rw [this]

theorem htRun_commit_hold (tmo : Nat) (u : Nat) (hu : 1 ≤ u) :
    htRun tmo (.pending 1) (List.replicate u .idleTick) =
      List.replicate u ⟨.committedHold, false⟩ ∧
    htPhaseAfter tmo (.pending 1) (List.replicate u .idleTick) =
      .committedHold := by
  obtain ⟨u', rfl⟩ : ∃ u', u = u' + 1 := ⟨u - 1, by omega⟩
  have hstep : htStep tmo (.pending 1) .idleTick = ⟨.committedHold, false⟩ := by
    simp [htStep]
  obtain ⟨h1, h2⟩ := htRun_hold_absorbs tmo u'
  constructor
  · rw [List.replicate_succ, htRun, hstep]
    simpa [List.replicate_succ] using h1
  · rw [List.replicate_succ, htPhaseAfter, hstep]
    exact h2

/-- The hold scenario: press the hold-tap key, then hold it for `n`
further ticks with no other activity. -/
def holdScenario (n : Nat) : List HtIn :=
  .pressHt :: List.replicate n .idleTick

/-- The tap scenario: press the hold-tap key, hold it for `t` ticks,
then release it. -/
def tapScenario (t : Nat) : List HtIn :=
  .pressHt :: (List.replicate t .idleTick ++ [.releaseHt])

/-- The rollover scenario: press the hold-tap key A, press another key
B `t` ticks later, keep both held `u` more ticks, then release A. -/
def rolloverScenario (t u : Nat) : List HtIn :=
  .pressHt :: (List.replicate t .idleTick ++
    .otherPress :: (List.replicate u .idleTick ++ [.releaseHt]))

/-- The key resolves to its hold interpretation: no tap pair is ever
emitted, the tap keycode is never asserted, and from the timeout tick
onward the hold action is asserted continuously. -/
def HoldResolves (tmo n : Nat) : Prop :=
  (∀ o ∈ htRun tmo .idle (holdScenario n),
    o.tapPair = false ∧ o.phase.isTap = false) ∧
  ∃ pre, htRun tmo .idle (holdScenario n) =
      pre ++ List.replicate (n + 1 - tmo) ⟨.committedHold, false⟩ ∧
    pre.length = tmo ∧ ∀ o ∈ pre, ∃ r', o = ⟨.pending r', false⟩

/-- The key resolves to its tap interpretation: the hold action is
never asserted, exactly one tap press+release pair is emitted, and
the machine returns to idle. -/
def TapResolves (tmo t : Nat) : Prop :=
  (∀ o ∈ htRun tmo .idle (tapScenario t), o.phase.isHold = false) ∧
  ((htRun tmo .idle (tapScenario t)).filter (fun o => o.tapPair)).length
    = 1 ∧
  htPhaseAfter tmo .idle (tapScenario t) = .idle

/-- C3: a hold-tap key held past the timeout without interruption
asserts the hold action for the rest of the hold and never emits the
tap keycode; released strictly before the timeout it emits exactly
one tap press+release pair and never asserts the hold action. -/
theorem holdtap_hold_vs_tap (tmo n t : Nat)
    (h0 : 0 < tmo) (hn : tmo ≤ n) (ht : t < tmo) :
    HoldResolves tmo n ∧ TapResolves tmo t := by
  have hsplit : n = (tmo - 1) + (n + 1 - tmo) := by omega
  have hpress : htStep tmo .idle .pressHt = ⟨.pending tmo, false⟩ := rfl
  constructor
  · -- hold scenario
    obtain ⟨hmem, hafter⟩ := htRun_pending_idles tmo (tmo - 1) tmo (by omega)
    have hafter1 : htPhaseAfter tmo (.pending tmo)
        (List.replicate (tmo - 1) .idleTick) = .pending 1 := by
      rw [hafter]
      have : tmo - (tmo - 1) = 1 := by omega
      rw [this]
    obtain ⟨hcommit, _⟩ := htRun_commit_hold tmo (n + 1 - tmo) (by omega)
    have hdecomp : htRun tmo .idle (holdScenario n) =
        (⟨.pending tmo, false⟩ ::
          htRun tmo (.pending tmo) (List.replicate (tmo - 1) .idleTick)) ++
        List.replicate (n + 1 - tmo) ⟨.committedHold, false⟩ := by
      rw [holdScenario, htRun, hpress]
      rw [show (List.replicate n HtIn.idleTick) =
          List.replicate (tmo - 1) HtIn.idleTick ++
            List.replicate (n + 1 - tmo) HtIn.idleTick by
        rw [← List.replicate_add]
        rw [← hsplit]]
      rw [htRun_append, hafter1, hcommit]
      simp
    refine ⟨?_, ⟨_, hdecomp, ?_, ?_⟩⟩
    · intro o ho
      rw [hdecomp] at ho
      rcases List.mem_append.mp ho with h | h
      · rcases List.mem_cons.mp h with h | h
        · subst h; exact ⟨rfl, rfl⟩
        · obtain ⟨r', rfl⟩ := hmem o h
          exact ⟨rfl, rfl⟩
      · rw [List.eq_of_mem_replicate h]
        exact ⟨rfl, rfl⟩
    · simp [htRun_length]
      omega
    · intro o ho
      rcases List.mem_cons.mp ho with h | h
      · exact ⟨tmo, h⟩
      · exact hmem o h
  · -- tap scenario
    obtain ⟨hmem, hafter⟩ := htRun_pending_idles tmo t tmo ht
    have hrel : htRun tmo (.pending (tmo - t)) [HtIn.releaseHt] =
        [⟨.idle, true⟩] := rfl
    have hdecomp : htRun tmo .idle (tapScenario t) =
        (⟨.pending tmo, false⟩ ::
          htRun tmo (.pending tmo) (List.replicate t .idleTick)) ++
        [⟨.idle, true⟩] := by
      rw [tapScenario, htRun, hpress]
      rw [htRun_append, hafter, hrel]
      simp
    refine ⟨?_, ?_, ?_⟩
    · intro o ho
      rw [hdecomp] at ho
      rcases List.mem_append.mp ho with h | h
      · rcases List.mem_cons.mp h with h | h
        · subst h; rfl
        · obtain ⟨r', rfl⟩ := hmem o h
          rfl
      · rcases List.mem_singleton.mp h with rfl
        rfl
    · rw [hdecomp]
      rw [List.filter_append]
      have hnil : (⟨.pending tmo, false⟩ ::
          htRun tmo (.pending tmo) (List.replicate t .idleTick)).filter
            (fun o => o.tapPair) = [] := by
        rw [List.filter_eq_nil]
        intro o ho
        rcases List.mem_cons.mp ho with h | h
        · subst h; simp
        · obtain ⟨r', rfl⟩ := hmem o h
          simp
      rw [hnil]
      rfl
    · rw [tapScenario, htPhaseAfter, hpress]
      rw [htPhaseAfter_append, hafter]
      rfl

/-- C3 witness: the firmware's SHIFT_SP timeout (200 ticks): held for
200 ticks the key resolves to hold; released immediately it resolves
to tap. -/
theorem holdtap_hold_vs_tap_witness :
    HoldResolves shiftSpHT.timeout 200 ∧ TapResolves shiftSpHT.timeout 0 :=
  holdtap_hold_vs_tap shiftSpHT.timeout 200 0 (by decide) (by decide)
    (by decide)

/-- The hold action of the hold-tap key is never asserted in the
rollover: the interrupting press forces the tap interpretation, which
stays asserted until the release, after which the machine is idle. -/
def RolloverResolvesTap (tmo t u : Nat) : Prop :=
  (∀ o ∈ htRun tmo .idle (rolloverScenario t u), o.phase.isHold = false) ∧
  ∃ pre, htRun tmo .idle (rolloverScenario t u) =
      pre ++ (⟨.committedTap, false⟩ ::
        (List.replicate u ⟨.committedTap, false⟩ ++ [⟨.idle, false⟩])) ∧
    pre.length = t + 1 ∧ ∀ o ∈ pre, ∃ r', o = ⟨.pending r', false⟩

/-- C4: pressing a hold-tap key A, then another key B before A's
tap-hold interval (equal to the timeout, 200, for every hold-tap key
of this layout) elapses, then releasing, never asserts A's hold
action — A resolves to its tap interpretation. -/
theorem holdtap_rollover_resolves_tap (tmo t u : Nat) (ht : t < tmo) :
    RolloverResolvesTap tmo t u := by
  have hpress : htStep tmo .idle .pressHt = ⟨.pending tmo, false⟩ := rfl
  obtain ⟨hmem, hafter⟩ := htRun_pending_idles tmo t tmo ht
  have hother : htStep tmo (.pending (tmo - t)) .otherPress =
      ⟨.committedTap, false⟩ := rfl
  obtain ⟨htapr, htapa⟩ := htRun_tap_absorbs tmo u
  have hrel : htRun tmo .committedTap [HtIn.releaseHt] = [⟨.idle, false⟩] := rfl
  have hdecomp : htRun tmo .idle (rolloverScenario t u) =
      (⟨.pending tmo, false⟩ ::
        htRun tmo (.pending tmo) (List.replicate t .idleTick)) ++
      (⟨.committedTap, false⟩ ::
        (List.replicate u ⟨.committedTap, false⟩ ++ [⟨.idle, false⟩])) := by
    rw [rolloverScenario, htRun, hpress]
    rw [htRun_append, hafter]
    rw [htRun, hother]
    rw [htRun_append, htapr, htapa, hrel]
    simp
  refine ⟨?_, ⟨_, hdecomp, ?_, ?_⟩⟩
  · intro o ho
    rw [hdecomp] at ho
    rcases List.mem_append.mp ho with h | h
    · rcases List.mem_cons.mp h with h | h
      · subst h; rfl
      · obtain ⟨r', rfl⟩ := hmem o h
        rfl
    · rcases List.mem_cons.mp h with h | h
      · subst h; rfl
      · rcases List.mem_append.mp h with h | h
        · rw [List.eq_of_mem_replicate h]
          rfl
        · rcases List.mem_singleton.mp h with rfl
          rfl
  · simp [htRun_length]
  · intro o ho
    rcases List.mem_cons.mp ho with h | h
    · exact ⟨tmo, h⟩
    · exact hmem o h

/-- C4 witness: with the firmware's SHIFT_SP timing (timeout and
tap-hold interval 200), an immediate interrupting press resolves the
key as tap and its hold action is never asserted. -/
theorem holdtap_rollover_resolves_tap_witness :
    RolloverResolvesTap shiftSpHT.timeout 0 0 :=
  holdtap_rollover_resolves_tap shiftSpHT.timeout 0 0 (by decide)

/-! ## Task and resource structure (the RTIC app of `src/main.rs`) -/

/-- The shared resources of the RTIC application (`struct Shared`). -/
inductive Resource where
  | usbDev
  | usbClass
  | layout
  deriving DecidableEq, Repr

/-- The interrupt-driven tasks of the RTIC application. -/
inductive RtTask where
  | tick
  | usbTx
  | usbRx
  deriving DecidableEq, Repr

/-- The shared resources each task declares
(`#[task(..., shared = [...])]`). -/
def sharedResources : RtTask → List Resource
  | .tick => [.usbDev, .usbClass, .layout]
  | .usbTx => [.usbDev, .usbClass]
  | .usbRx => [.usbDev, .usbClass]

/-- The resources marked `#[lock_free]` in `struct Shared`, accessed
without any lock. -/
def lockFreeResources : List Resource := [.layout]

/-- The resources each task accesses under an explicit `.lock(...)`
call in its body. -/
def lockedAccesses : RtTask → List Resource
  | .tick => [.usbClass]
  | .usbTx => [.usbDev, .usbClass]
  | .usbRx => [.usbDev, .usbClass]

/-- The shared resources each task's body actually touches (the tick
handler feeds events to and ticks the layout and writes through the
class; the USB handlers poll the device and class). -/
def touchedResources : RtTask → List Resource
  | .tick => [.usbClass, .layout]
  | .usbTx => [.usbDev, .usbClass]
  | .usbRx => [.usbDev, .usbClass]

/-- C10: the layout is in the tick handler's resource set and in
neither USB handler's, the tick handler is the only task touching it,
it is exactly the lock-free resource and is never accessed under a
lock, while the transport/class objects — the resources genuinely
shared with the USB handlers — are accessed only under locks and are
not lock-free. -/
theorem layout_exclusive_to_tick :
    (Resource.layout ∈ sharedResources RtTask.tick ∧
     Resource.layout ∉ sharedResources RtTask.usbTx ∧
     Resource.layout ∉ sharedResources RtTask.usbRx) ∧
    (∀ tk, Resource.layout ∈ touchedResources tk ↔ tk = RtTask.tick) ∧
    (∀ tk, Resource.layout ∉ lockedAccesses tk) ∧
    lockFreeResources = [Resource.layout] ∧
    (Resource.usbClass ∈ lockedAccesses RtTask.tick ∧
     Resource.usbClass ∈ lockedAccesses RtTask.usbTx ∧
     Resource.usbClass ∈ lockedAccesses RtTask.usbRx ∧
     Resource.usbClass ∉ lockFreeResources ∧
     Resource.usbDev ∉ lockFreeResources) := by
  refine ⟨by decide, ?_, ?_, rfl, by decide⟩
  · intro tk
    cases tk <;> decide
  · intro tk
    cases tk <;> decide
